import Mathlib

/-!
Shallow embedding of the WOLManager discovery core
(app/models/host.py, app/services/data_quality.py,
app/core/redis_client.py, app/services/dhcp_analyzer.py,
app/services/discovery_service.py), together with theorems settling the
spec claims about the quality scorer, the merge engine, the storage
merge, the DHCP inference classifier and the discovery orchestration.

Modelling conventions:
  Python `Optional[str]` becomes `Option String`; Python truthiness of an
  optional string (`not x`) is `truthyStr x = false` (both `None` and the
  empty string are falsy).  Python `Optional[int]` becomes `Option Int`
  (`0` is falsy).  `datetime` values are modelled as `Option Nat` ticks:
  only their relative order is ever used by the code (ISO-8601 strings of
  the same clock compare like the underlying instants).  Python's stable
  `sort(key=score, reverse=True)` is modelled by the stable insertion
  sort with the order `score b ≤ score a`: a stable sort's output is
  determined uniquely by the key order, so this is the same list CPython
  produces.  String scanning (split, prefix, containment, case folding)
  is done structurally on `List Char` so that every definition reduces
  inside the kernel.
-/

/-- Discovery method enumeration (app/models/host.py `DiscoveryMethod`). -/
inductive DiscoveryMethod where
  | routeros_api
  | routeros_rest
  | snmp
  | netbios
  | mdns
  | arp
deriving Repr, DecidableEq

/-- Host status enumeration (app/models/host.py `HostStatus`). -/
inductive HostStatus where
  | online
  | offline
  | unknown
deriving Repr, DecidableEq

/-- Host information model (app/models/host.py `Host`).  Field for field the
pydantic model; required `ip_address`, optional strings, optional
discovery method, status defaulting handled at construction sites. -/
structure Host where
  ip_address : String
  mac_address : Option String := none
  hostname : Option String := none
  vendor : Option String := none
  device_type : Option String := none
  os_info : Option String := none
  discovery_method : Option DiscoveryMethod := none
  status : HostStatus := HostStatus.unknown
  last_seen : Option Nat := none
  wol_enabled : Bool := true
  notes : Option String := none
  inferred_os : Option String := none
  inferred_device_type : Option String := none
  inference_confidence : Option Int := none
deriving Repr, DecidableEq

/-- Python truthiness of an optional string: `None` and `""` are falsy. -/
def truthyStr : Option String → Bool
  | none => false
  | some s => !s.isEmpty

/-- Python truthiness of an optional integer: `None` and `0` are falsy. -/
def truthyInt : Option Int → Bool
  | none => false
  | some n => n != 0

/-- Length of `x or ''` for an optional string (Python `len(x or '')`). -/
def optStrLen : Option String → Nat
  | none => 0
  | some s => s.length

/-- Split a character list at every occurrence of the separator, keeping
empty parts, exactly like Python's `str.split(sep)` with an explicit
separator (so the result always has at least one part). -/
def splitOnChar (sep : Char) : List Char → List (List Char)
  | [] => [[]]
  | c :: cs =>
    let r := splitOnChar sep cs
    if c = sep then [] :: r
    else
      match r with
      | [] => [[c]]
      | p :: ps => (c :: p) :: ps

/-- Python `s.startswith(p)` on strings, computed on the character lists. -/
def strStartsWith (s p : String) : Bool :=
  p.toList.isPrefixOf s.toList

namespace DataQualityScorer

/-- Discovery method quality scores (`DataQualityScorer.METHOD_SCORES`). -/
def METHOD_SCORES : DiscoveryMethod → Nat
  | .routeros_api => 100
  | .routeros_rest => 95
  | .snmp => 80
  | .netbios => 70
  | .mdns => 60
  | .arp => 50

/-- Base quality score for an (optional) discovery method:
`METHOD_SCORES.get(method, 0)` (`DataQualityScorer.get_method_quality`,
also the lookup inside `score_host`). -/
def get_method_quality : Option DiscoveryMethod → Nat
  | none => 0
  | some m => METHOD_SCORES m

/-- Quality score of a host (`DataQualityScorer.score_host`): method base
score, plus a fixed bonus for each of the seven scored fields that is
present and non-empty, plus 5 for os_info longer than 20 characters,
plus 3 for a compound (underscore-containing) device type. -/
def score_host (host : Host) : Nat :=
  get_method_quality host.discovery_method
  + (if host.ip_address ≠ "" then 10 else 0)
  + (if truthyStr host.mac_address then 20 else 0)
  + (if truthyStr host.hostname then 15 else 0)
  + (if truthyStr host.vendor then 10 else 0)
  + (if truthyStr host.device_type then 8 else 0)
  + (if truthyStr host.os_info then 12 else 0)
  + (if truthyStr host.notes then 5 else 0)
  + (if truthyStr host.os_info ∧ optStrLen host.os_info > 20 then 5 else 0)
  + (if truthyStr host.device_type ∧
        (host.device_type.getD "").toList.contains '_' then 3 else 0)

end DataQualityScorer

namespace HostMerger

/-- Status priority table (`HostMerger._is_better_status`): the Python
dict `{'online': 3, 'unknown': 2, 'offline': 1}`; every `HostStatus`
value is a key, so the `.get(_, 0)` default is never taken for host
statuses. -/
def status_priority : HostStatus → Nat
  | .online => 3
  | .unknown => 2
  | .offline => 1

/-- Whether the new status outranks the current one
(`HostMerger._is_better_status`). -/
def _is_better_status (new_status current_status : HostStatus) : Bool :=
  status_priority new_status > status_priority current_status

/-- Preferred device-type prefixes (`HostMerger._is_more_specific_device_type`). -/
def preferred_prefixes : List String :=
  ["dhcp_lease", "arp_entry", "snmp", "netbios"]

/-- Whether the new device type is judged more specific than the current
one (`HostMerger._is_more_specific_device_type`): falsy new loses, falsy
current loses, then more underscore-separated parts wins, then the
preferred-prefix scan (which the code runs whenever the part-count test
did not already decide, even when the new value has fewer parts). -/
def _is_more_specific_device_type (new_type current_type : Option String) : Bool :=
  if !truthyStr new_type then false
  else if !truthyStr current_type then true
  else
    let n := new_type.getD ""
    let c := current_type.getD ""
    if (splitOnChar '_' n.toList).length > (splitOnChar '_' c.toList).length then true
    else if preferred_prefixes.any (fun p => strStartsWith n p && !(strStartsWith c p)) then true
    else false

/-- One step of the merge fold (`HostMerger._merge_host_data`): fold the
`other_host` into the accumulated record, field by field, exactly in the
order and with the conditions of the Python function.  `ip_address`,
`last_seen`, `wol_enabled` are never touched by this function. -/
def _merge_host_data (base : Host) (other_host : Host) : Host :=
  let mac := if !truthyStr base.mac_address && truthyStr other_host.mac_address
    then other_host.mac_address else base.mac_address
  let hn := if !truthyStr base.hostname
      || (truthyStr other_host.hostname
          && optStrLen other_host.hostname > optStrLen base.hostname)
    then other_host.hostname else base.hostname
  let vd := if !truthyStr base.vendor && truthyStr other_host.vendor
    then other_host.vendor else base.vendor
  let dt := if !truthyStr base.device_type
      || _is_more_specific_device_type other_host.device_type base.device_type
    then other_host.device_type else base.device_type
  let osi := if !truthyStr base.os_info
      || (truthyStr other_host.os_info
          && optStrLen other_host.os_info > optStrLen base.os_info)
    then other_host.os_info else base.os_info
  let nt := if !truthyStr base.notes && truthyStr other_host.notes
    then other_host.notes else base.notes
  let dm := if DataQualityScorer.get_method_quality other_host.discovery_method
      > DataQualityScorer.get_method_quality base.discovery_method
    then other_host.discovery_method else base.discovery_method
  let st := if _is_better_status other_host.status base.status
    then other_host.status else base.status
  let ios := if !truthyStr base.inferred_os && truthyStr other_host.inferred_os
    then other_host.inferred_os else base.inferred_os
  let idt := if !truthyStr base.inferred_device_type && truthyStr other_host.inferred_device_type
    then other_host.inferred_device_type else base.inferred_device_type
  let ic := if !truthyInt base.inference_confidence && truthyInt other_host.inference_confidence
    then other_host.inference_confidence else base.inference_confidence
  { base with
    mac_address := mac
    hostname := hn
    vendor := vd
    device_type := dt
    os_info := osi
    notes := nt
    discovery_method := dm
    status := st
    inferred_os := ios
    inferred_device_type := idt
    inference_confidence := ic }

/-- Stable descending sort by quality score: Python
`scored_hosts.sort(key=lambda x: x[0], reverse=True)`.  CPython's sort is
stable, and a stable sort's output is uniquely determined by the key
order, so any stable sort models it; insertion sort with the order
`score b ≤ score a` is stable for ties and descending in score. -/
def sortByScoreDesc (hosts : List Host) : List Host :=
  hosts.insertionSort (fun a b =>
    DataQualityScorer.score_host b ≤ DataQualityScorer.score_host a)

/-- Merge a group of hosts with the same IP (`HostMerger._merge_host_group`):
a singleton passes through; otherwise the top-scoring host (after the
stable descending sort) seeds the record (`merged_data` copies every
field of it) and the remaining hosts are folded in with
`_merge_host_data`.  The Python code indexes `scored_hosts[0]` and would
raise on an empty list; `none` models that impossible branch. -/
def _merge_host_group (hosts : List Host) : Option Host :=
  match hosts with
  | [h] => some h
  | _ =>
    match sortByScoreDesc hosts with
    | [] => none
    | best :: rest => some (rest.foldl _merge_host_data best)

/-- Group hosts by IP address preserving first-seen key order (the
`ip_groups` dict built in `HostMerger.merge_hosts`). -/
def addToGroups (gs : List (String × List Host)) (h : Host) : List (String × List Host) :=
  if gs.any (fun g => g.1 = h.ip_address) then
    gs.map (fun g => if g.1 = h.ip_address then (g.1, g.2 ++ [h]) else g)
  else
    gs ++ [(h.ip_address, [h])]

/-- Per-group step of `HostMerger.merge_hosts`: a singleton group is
appended unchanged (`len(host_list) == 1`), larger groups go through
`_merge_host_group`. -/
def mergeGroupEntry (g : String × List Host) : Option Host :=
  match g.2 with
  | [h] => some h
  | l => _merge_host_group l

/-- The host used as the base of the canonical record for a group: the
group's only member for a singleton, otherwise the top-scoring host
(head of the stable descending sort), i.e. `scored_hosts[0][1]`. -/
def mergeSeed (hs : List Host) : Option Host :=
  match hs with
  | [h] => some h
  | _ => (sortByScoreDesc hs).head?

/-- Merge multiple host entries for the same IP address
(`HostMerger.merge_hosts`): empty input passes through, otherwise hosts
are grouped by `ip_address`, singleton groups pass through unchanged and
larger groups are merged with `_merge_host_group`. -/
def merge_hosts (hosts : List Host) : List Host :=
  match hosts with
  | [] => []
  | _ => (hosts.foldl addToGroups []).filterMap mergeGroupEntry

end HostMerger

/-! ### Field-level lemmas about the merge fold -/

namespace HostMerger

theorem merge_data_ip (b o : Host) :
    (_merge_host_data b o).ip_address = b.ip_address := rfl

theorem merge_data_last_seen (b o : Host) :
    (_merge_host_data b o).last_seen = b.last_seen := rfl

theorem merge_data_status (b o : Host) :
    (_merge_host_data b o).status =
      if _is_better_status o.status b.status then o.status else b.status := rfl

theorem merge_data_method (b o : Host) :
    (_merge_host_data b o).discovery_method =
      if DataQualityScorer.get_method_quality o.discovery_method
          > DataQualityScorer.get_method_quality b.discovery_method
        then o.discovery_method else b.discovery_method := rfl

theorem merge_data_inferred_os (b o : Host) :
    (_merge_host_data b o).inferred_os =
      if !truthyStr b.inferred_os && truthyStr o.inferred_os
        then o.inferred_os else b.inferred_os := rfl

theorem merge_data_inferred_device_type (b o : Host) :
    (_merge_host_data b o).inferred_device_type =
      if !truthyStr b.inferred_device_type && truthyStr o.inferred_device_type
        then o.inferred_device_type else b.inferred_device_type := rfl

theorem merge_data_inference_confidence (b o : Host) :
    (_merge_host_data b o).inference_confidence =
      if !truthyInt b.inference_confidence && truthyInt o.inference_confidence
        then o.inference_confidence else b.inference_confidence := rfl

/-- Over a whole fold, the seed's `ip_address` is kept. -/
theorem foldl_merge_ip (l : List Host) (b : Host) :
    (l.foldl _merge_host_data b).ip_address = b.ip_address := by
  induction l generalizing b with
  | nil => rfl
  | cons o l ih => simpa [List.foldl_cons, merge_data_ip] using ih (_merge_host_data b o)

/-- Over a whole fold, the seed's `last_seen` is kept: no per-field rule of
`_merge_host_data` ever touches `last_seen`. -/
theorem foldl_merge_last_seen (l : List Host) (b : Host) :
    (l.foldl _merge_host_data b).last_seen = b.last_seen := by
  induction l generalizing b with
  | nil => rfl
  | cons o l ih => simpa [List.foldl_cons] using ih (_merge_host_data b o)

/-- The folded status is one of the statuses of the seed or of the folded
hosts. -/
theorem foldl_merge_status_mem (l : List Host) (b : Host) :
    (l.foldl _merge_host_data b).status ∈ b.status :: l.map Host.status := by
  induction l generalizing b with
  | nil => simp
  | cons o l ih =>
    have h := ih (_merge_host_data b o)
    rw [merge_data_status] at h
    rcases List.mem_cons.mp h with h1 | h1
    · by_cases hb : _is_better_status o.status b.status
      · simp only [hb, if_pos] at h1
        simp [List.foldl_cons, h1]
      · simp only [hb, if_neg, not_false_iff] at h1
        simp [List.foldl_cons, h1]
    · simp [List.foldl_cons, List.mem_cons.mpr (Or.inr h1)]

/-- The folded status outranks (weakly) every contributing status. -/
theorem foldl_merge_status_max (l : List Host) (b : Host) :
    status_priority b.status ≤ status_priority (l.foldl _merge_host_data b).status ∧
    ∀ h ∈ l, status_priority h.status ≤ status_priority (l.foldl _merge_host_data b).status := by
  induction l generalizing b with
  | nil => exact ⟨le_refl _, by simp⟩
  | cons o l ih =>
    have step : status_priority b.status ≤ status_priority (_merge_host_data b o).status ∧
        status_priority o.status ≤ status_priority (_merge_host_data b o).status := by
      rw [merge_data_status]
      unfold _is_better_status
      by_cases hc : status_priority o.status > status_priority b.status
      · simp [hc, Nat.le_of_lt hc]
      · simp [hc, Nat.le_of_not_lt hc]
    obtain ⟨ih1, ih2⟩ := ih (_merge_host_data b o)
    refine ⟨le_trans step.1 ih1, ?_⟩
    intro h hm
    rcases List.mem_cons.mp hm with rfl | hm
    · exact le_trans step.2 ih1
    · exact ih2 h hm

/-- The folded discovery method is one of the contributing methods. -/
theorem foldl_merge_method_mem (l : List Host) (b : Host) :
    (l.foldl _merge_host_data b).discovery_method
      ∈ b.discovery_method :: l.map Host.discovery_method := by
  induction l generalizing b with
  | nil => simp
  | cons o l ih =>
    have h := ih (_merge_host_data b o)
    rw [merge_data_method] at h
    rcases List.mem_cons.mp h with h1 | h1
    · by_cases hb : DataQualityScorer.get_method_quality o.discovery_method
          > DataQualityScorer.get_method_quality b.discovery_method
      · simp only [hb, if_pos] at h1
        simp [List.foldl_cons, h1]
      · simp only [hb, if_neg, not_false_iff] at h1
        simp [List.foldl_cons, h1]
    · simp [List.foldl_cons, List.mem_cons.mpr (Or.inr h1)]

/-- The folded discovery method has (weakly) maximal base quality among
the contributors. -/
theorem foldl_merge_method_max (l : List Host) (b : Host) :
    DataQualityScorer.get_method_quality b.discovery_method
      ≤ DataQualityScorer.get_method_quality (l.foldl _merge_host_data b).discovery_method ∧
    ∀ h ∈ l, DataQualityScorer.get_method_quality h.discovery_method
      ≤ DataQualityScorer.get_method_quality (l.foldl _merge_host_data b).discovery_method := by
  induction l generalizing b with
  | nil => exact ⟨le_refl _, by simp⟩
  | cons o l ih =>
    have step : DataQualityScorer.get_method_quality b.discovery_method
          ≤ DataQualityScorer.get_method_quality (_merge_host_data b o).discovery_method ∧
        DataQualityScorer.get_method_quality o.discovery_method
          ≤ DataQualityScorer.get_method_quality (_merge_host_data b o).discovery_method := by
      rw [merge_data_method]
      by_cases hc : DataQualityScorer.get_method_quality o.discovery_method
          > DataQualityScorer.get_method_quality b.discovery_method
      · simp [hc, Nat.le_of_lt hc]
      · simp [hc, Nat.le_of_not_lt hc]
    obtain ⟨ih1, ih2⟩ := ih (_merge_host_data b o)
    refine ⟨le_trans step.1 ih1, ?_⟩
    intro h hm
    rcases List.mem_cons.mp hm with rfl | hm
    · exact le_trans step.2 ih1
    · exact ih2 h hm

/-- Inference fields: a Python-truthy accumulated value is never
overwritten by a fold step, and the produced value always comes from one
of the two sides. -/
theorem merge_data_inferred_persist (b o : Host) :
    (truthyStr b.inferred_os → (_merge_host_data b o).inferred_os = b.inferred_os) ∧
    (truthyStr b.inferred_device_type →
      (_merge_host_data b o).inferred_device_type = b.inferred_device_type) ∧
    (truthyInt b.inference_confidence →
      (_merge_host_data b o).inference_confidence = b.inference_confidence) := by
  refine ⟨fun h => ?_, fun h => ?_, fun h => ?_⟩
  · rw [merge_data_inferred_os, h]; simp
  · rw [merge_data_inferred_device_type, h]; simp
  · rw [merge_data_inference_confidence, h]; simp

/-- Over a whole fold, a truthy inferred field of the seed survives. -/
theorem foldl_merge_inferred_persist (l : List Host) (b : Host) :
    (truthyStr b.inferred_os → (l.foldl _merge_host_data b).inferred_os = b.inferred_os) ∧
    (truthyStr b.inferred_device_type →
      (l.foldl _merge_host_data b).inferred_device_type = b.inferred_device_type) ∧
    (truthyInt b.inference_confidence →
      (l.foldl _merge_host_data b).inference_confidence = b.inference_confidence) := by
  induction l generalizing b with
  | nil => exact ⟨fun _ => rfl, fun _ => rfl, fun _ => rfl⟩
  | cons o l ih =>
    obtain ⟨s1, s2, s3⟩ := merge_data_inferred_persist b o
    obtain ⟨i1, i2, i3⟩ := ih (_merge_host_data b o)
    refine ⟨fun h => ?_, fun h => ?_, fun h => ?_⟩
    · rw [List.foldl_cons, i1 (by rw [s1 h]; exact h), s1 h]
    · rw [List.foldl_cons, i2 (by rw [s2 h]; exact h), s2 h]
    · rw [List.foldl_cons, i3 (by rw [s3 h]; exact h), s3 h]

/-- The folded inference fields each come from one of the contributors. -/
theorem foldl_merge_inferred_mem (l : List Host) (b : Host) :
    (l.foldl _merge_host_data b).inferred_os ∈ b.inferred_os :: l.map Host.inferred_os ∧
    (l.foldl _merge_host_data b).inferred_device_type
      ∈ b.inferred_device_type :: l.map Host.inferred_device_type ∧
    (l.foldl _merge_host_data b).inference_confidence
      ∈ b.inference_confidence :: l.map Host.inference_confidence := by
  induction l generalizing b with
  | nil => simp
  | cons o l ih =>
    obtain ⟨i1, i2, i3⟩ := ih (_merge_host_data b o)
    rw [merge_data_inferred_os] at i1
    rw [merge_data_inferred_device_type] at i2
    rw [merge_data_inference_confidence] at i3
    refine ⟨?_, ?_, ?_⟩
    · rcases List.mem_cons.mp i1 with h1 | h1
      · split at h1 <;> simp [List.foldl_cons, h1]
      · simp [List.foldl_cons, List.mem_cons.mpr (Or.inr h1)]
    · rcases List.mem_cons.mp i2 with h1 | h1
      · split at h1 <;> simp [List.foldl_cons, h1]
      · simp [List.foldl_cons, List.mem_cons.mpr (Or.inr h1)]
    · rcases List.mem_cons.mp i3 with h1 | h1
      · split at h1 <;> simp [List.foldl_cons, h1]
      · simp [List.foldl_cons, List.mem_cons.mpr (Or.inr h1)]

/-- Decomposition of a successful group merge: there is a seed (the
group's single member, or the head of the stable descending sort) and a
rest list such that the result is the fold of the rest into the seed and
seed-plus-rest is a permutation of the group. -/
theorem merge_group_seed_fold (hs : List Host) (m : Host)
    (h : _merge_host_group hs = some m) :
    ∃ best rest, mergeSeed hs = some best ∧
      m = rest.foldl _merge_host_data best ∧ (best :: rest).Perm hs := by
  rcases hs with _ | ⟨a, _ | ⟨b, t⟩⟩
  · simp [_merge_host_group, sortByScoreDesc, List.insertionSort] at h
  · simp only [_merge_host_group, Option.some.injEq] at h
    exact ⟨a, [], rfl, h.symm, by simp⟩
  · have hperm : (sortByScoreDesc (a :: b :: t)).Perm (a :: b :: t) :=
      List.perm_insertionSort _ _
    rcases hsort : sortByScoreDesc (a :: b :: t) with _ | ⟨best, rest⟩
    · rw [hsort] at hperm
      simpa using hperm.length_eq
    · simp only [_merge_host_group, hsort, Option.some.injEq] at h
      rw [hsort] at hperm
      exact ⟨best, rest, by simp [mergeSeed, hsort], h.symm, hperm⟩

/-- A successful group merge keeps an `ip_address` of one of the group
members (the fold never modifies the seed's `ip_address`). -/
theorem merge_group_ip (hs : List Host) (m : Host)
    (h : _merge_host_group hs = some m) :
    m.ip_address ∈ hs.map Host.ip_address := by
  obtain ⟨best, rest, _, hm, hperm⟩ := merge_group_seed_fold hs m h
  subst hm
  rw [foldl_merge_ip]
  exact (hperm.map Host.ip_address).mem_iff.mp (by simp)

/-- A non-empty group always merges successfully. -/
theorem merge_group_total (hs : List Host) (hne : hs ≠ []) :
    ∃ m, _merge_host_group hs = some m := by
  rcases hs with _ | ⟨a, _ | ⟨b, t⟩⟩
  · exact absurd rfl hne
  · exact ⟨a, rfl⟩
  · have hperm : (sortByScoreDesc (a :: b :: t)).Perm (a :: b :: t) :=
      List.perm_insertionSort _ _
    rcases hsort : sortByScoreDesc (a :: b :: t) with _ | ⟨best, rest⟩
    · rw [hsort] at hperm
      simpa using hperm.length_eq
    · exact ⟨rest.foldl _merge_host_data best, by simp [_merge_host_group, hsort]⟩

/-- Invariant of the `ip_groups` accumulation in `merge_hosts`: keys are
distinct, keys are exactly the IPs seen so far, and each group holds, in
order, exactly the processed hosts with its key. -/
def groupsInv (processed : List Host) (gs : List (String × List Host)) : Prop :=
  (gs.map Prod.fst).Nodup ∧
  (∀ ip, ip ∈ gs.map Prod.fst ↔ ip ∈ processed.map Host.ip_address) ∧
  (∀ g ∈ gs, g.2 = processed.filter (fun h => h.ip_address = g.1))

theorem groupsInv_nil : groupsInv [] [] := by
  refine ⟨List.nodup_nil, fun ip => ?_, fun g hg => absurd hg (List.not_mem_nil g)⟩
  simp

theorem groupsInv_step (processed : List Host) (gs : List (String × List Host))
    (h : Host) (inv : groupsInv processed gs) :
    groupsInv (processed ++ [h]) (addToGroups gs h) := by
  obtain ⟨hnd, hiff, hcont⟩ := inv
  unfold addToGroups
  by_cases hmem : gs.any (fun g => g.1 = h.ip_address)
  · have hkey : h.ip_address ∈ gs.map Prod.fst := by
      obtain ⟨g, hg, hgk⟩ := List.any_eq_true.mp hmem
      exact List.mem_map.mpr ⟨g, hg, (of_decide_eq_true hgk).symm ▸ rfl⟩
    rw [if_pos hmem]
    have hkeys : (gs.map (fun g =>
        if g.1 = h.ip_address then (g.1, g.2 ++ [h]) else g)).map Prod.fst
        = gs.map Prod.fst := by
      rw [List.map_map]
      refine List.map_congr_left (fun g _ => ?_)
      by_cases hg : g.1 = h.ip_address <;> simp [hg]
    refine ⟨by rw [hkeys]; exact hnd, fun ip => ?_, fun g hg => ?_⟩
    · rw [hkeys, hiff ip, List.map_append]
      constructor
      · exact fun hin => List.mem_append.mpr (Or.inl hin)
      · intro hin
        rcases List.mem_append.mp hin with hin | hin
        · exact hin
        · simp only [List.map_cons, List.map_nil, List.mem_singleton] at hin
          rw [hin]
          exact (hiff h.ip_address).mp hkey
    · obtain ⟨g0, hg0, hup⟩ := List.mem_map.mp hg
      rw [List.filter_append]
      by_cases hgk : g0.1 = h.ip_address
      · rw [if_pos hgk] at hup
        rw [← hup]
        simp only
        rw [← hcont g0 hg0, hgk]
        simp
      · rw [if_neg hgk] at hup
        have hne2 : decide (h.ip_address = g0.1) = false :=
          decide_eq_false (fun hh => hgk hh.symm)
        rw [← hup, ← hcont g0 hg0]
        simp [List.filter, hne2]
  · have hkey : h.ip_address ∉ gs.map Prod.fst := by
      intro hin
      obtain ⟨g, hg, hgk⟩ := List.mem_map.mp hin
      exact hmem (List.any_eq_true.mpr ⟨g, hg, decide_eq_true hgk⟩)
    rw [if_neg hmem]
    refine ⟨?_, fun ip => ?_, fun g hg => ?_⟩
    · rw [List.map_append]
      simp only [List.map_cons, List.map_nil]
      exact List.Nodup.append hnd (List.nodup_singleton _)
        (List.disjoint_singleton.mpr hkey)
    · rw [List.map_append, List.map_append]
      simp only [List.map_cons, List.map_nil]
      rw [List.mem_append, List.mem_append, hiff ip]
    · rcases List.mem_append.mp hg with hg | hg
      · rw [List.filter_append]
        have hgk : h.ip_address ≠ g.1 := by
          intro hh
          exact hkey (hh ▸ List.mem_map.mpr ⟨g, hg, rfl⟩)
        have : (List.filter (fun h2 => decide (h2.ip_address = g.1)) [h]) = [] := by
          simp [List.filter, hgk]
        rw [this, List.append_nil]
        exact hcont g hg
      · simp only [List.mem_singleton] at hg
        subst hg
        rw [List.filter_append]
        have h1 : processed.filter (fun h2 => decide (h2.ip_address = h.ip_address)) = [] := by
          rw [List.filter_eq_nil_iff]
          intro a ha hip
          exact hkey ((hiff h.ip_address).mpr
            (of_decide_eq_true hip ▸ List.mem_map.mpr ⟨a, ha, rfl⟩))
        rw [h1, List.nil_append]
        simp [List.filter]

theorem groupsInv_foldl (hosts : List Host) :
    ∀ (processed : List Host) (gs : List (String × List Host)),
      groupsInv processed gs →
      groupsInv (processed ++ hosts) (hosts.foldl addToGroups gs) := by
  induction hosts with
  | nil => intro processed gs inv; simpa using inv
  | cons h t ih =>
    intro processed gs inv
    rw [List.foldl_cons, List.append_cons]
    exact ih (processed ++ [h]) (addToGroups gs h) (groupsInv_step processed gs h inv)

theorem groupsInv_merge (hosts : List Host) :
    groupsInv hosts (hosts.foldl addToGroups []) := by
  simpa using groupsInv_foldl hosts [] [] groupsInv_nil

/-- Every group produced by the grouping pass merges to a record with the
group's key as IP. -/
theorem mergeGroupEntry_spec (hosts : List Host) (g : String × List Host)
    (hg : g ∈ hosts.foldl addToGroups []) :
    ∃ m, mergeGroupEntry g = some m ∧ m.ip_address = g.1 := by
  obtain ⟨hnd, hiff, hcont⟩ := groupsInv_merge hosts
  have hfil := hcont g hg
  have hkey : g.1 ∈ hosts.map Host.ip_address :=
    (hiff g.1).mp (List.mem_map.mpr ⟨g, hg, rfl⟩)
  obtain ⟨a, ha, hip⟩ := List.mem_map.mp hkey
  have hmem : a ∈ g.2 := by
    rw [hfil]
    exact List.mem_filter.mpr ⟨ha, decide_eq_true hip⟩
  have hips : ∀ x ∈ g.2, x.ip_address = g.1 := by
    intro x hx
    rw [hfil] at hx
    exact of_decide_eq_true (List.mem_filter.mp hx).2
  rcases hg2 : g.2 with _ | ⟨x, l⟩
  · rw [hg2] at hmem; exact absurd hmem (List.not_mem_nil a)
  · rcases l with _ | ⟨y, l2⟩
    · exact ⟨x, by simp [mergeGroupEntry, hg2], hips x (by rw [hg2]; simp)⟩
    · obtain ⟨m, hm⟩ := merge_group_total (x :: y :: l2) (by simp)
      refine ⟨m, by simp [mergeGroupEntry, hg2, hm], ?_⟩
      have := merge_group_ip _ _ hm
      obtain ⟨z, hz, hzip⟩ := List.mem_map.mp this
      rw [← hzip]
      exact hips z (by rw [hg2]; exact hz)

/-- The merged output lists exactly the group keys as IPs. -/
theorem filterMap_ips (gs : List (String × List Host))
    (hall : ∀ g ∈ gs, ∃ m, mergeGroupEntry g = some m ∧ m.ip_address = g.1) :
    (gs.filterMap mergeGroupEntry).map Host.ip_address = gs.map Prod.fst := by
  induction gs with
  | nil => rfl
  | cons g t ih =>
    obtain ⟨m, hm, hip⟩ := hall g (by simp)
    rw [List.filterMap_cons, hm]
    simp only [List.map_cons]
    rw [hip, ih (fun g2 hg2 => hall g2 (by simp [hg2]))]

theorem merge_hosts_eq (hosts : List Host) :
    merge_hosts hosts = (hosts.foldl addToGroups []).filterMap mergeGroupEntry := by
  cases hosts <;> rfl

/-- Merging a two-element batch with a shared IP yields exactly the group
merge of the pair. -/
theorem merge_hosts_pair (h1 h2 : Host) (hip : h1.ip_address = h2.ip_address) :
    ∃ m, _merge_host_group [h1, h2] = some m ∧ merge_hosts [h1, h2] = [m] := by
  obtain ⟨m, hm⟩ := merge_group_total [h1, h2] (by simp)
  refine ⟨m, hm, ?_⟩
  rw [merge_hosts_eq]
  have hfold : [h1, h2].foldl addToGroups [] = [(h1.ip_address, [h1, h2])] := by
    simp [addToGroups, hip]
  rw [hfold]
  simp [mergeGroupEntry, hm]

/-- Status of a successful group merge: it is one of the contributed
statuses and outranks (weakly) all of them. -/
theorem merge_group_status (hs : List Host) (m : Host)
    (h : _merge_host_group hs = some m) :
    m.status ∈ hs.map Host.status ∧
    ∀ x ∈ hs, status_priority x.status ≤ status_priority m.status := by
  obtain ⟨best, rest, _, hm, hperm⟩ := merge_group_seed_fold hs m h
  subst hm
  constructor
  · have hmem := foldl_merge_status_mem rest best
    have : (rest.foldl _merge_host_data best).status ∈ (best :: rest).map Host.status := by
      simpa using hmem
    exact (hperm.map Host.status).mem_iff.mp this
  · intro x hx
    have hx2 : x ∈ best :: rest := hperm.mem_iff.mpr hx
    rcases List.mem_cons.mp hx2 with rfl | hx2
    · exact (foldl_merge_status_max rest x).1
    · exact (foldl_merge_status_max rest best).2 x hx2

/-- Discovery method of a successful group merge: it is one of the
contributed methods and its base quality is (weakly) maximal. -/
theorem merge_group_method (hs : List Host) (m : Host)
    (h : _merge_host_group hs = some m) :
    m.discovery_method ∈ hs.map Host.discovery_method ∧
    ∀ x ∈ hs, DataQualityScorer.get_method_quality x.discovery_method
      ≤ DataQualityScorer.get_method_quality m.discovery_method := by
  obtain ⟨best, rest, _, hm, hperm⟩ := merge_group_seed_fold hs m h
  subst hm
  constructor
  · have hmem := foldl_merge_method_mem rest best
    have : (rest.foldl _merge_host_data best).discovery_method
        ∈ (best :: rest).map Host.discovery_method := by
      simpa using hmem
    exact (hperm.map Host.discovery_method).mem_iff.mp this
  · intro x hx
    have hx2 : x ∈ best :: rest := hperm.mem_iff.mpr hx
    rcases List.mem_cons.mp hx2 with rfl | hx2
    · exact (foldl_merge_method_max rest x).1
    · exact (foldl_merge_method_max rest best).2 x hx2

/-- The canonical record's `last_seen` is exactly the seed's `last_seen`:
the fold never adopts a candidate's value for this field. -/
theorem merge_group_last_seen (hs : List Host) (m : Host)
    (h : _merge_host_group hs = some m) :
    (mergeSeed hs).map Host.last_seen = some m.last_seen := by
  obtain ⟨best, rest, hseed, hm, _⟩ := merge_group_seed_fold hs m h
  subst hm
  rw [hseed, foldl_merge_last_seen]
  rfl

end HostMerger

/-! ### Claim C1 -/

/-- C1: for every non-empty observation list, `merge_hosts` produces
exactly one canonical record per distinct `ip_address` present in the
input (the output IPs are exactly the input IPs, without duplicates),
groups of size 1 pass through unchanged, and the merge never fails. -/
theorem C1_one_record_per_ip (hosts : List Host) (hne : hosts ≠ []) :
    ((HostMerger.merge_hosts hosts).map Host.ip_address).Nodup ∧
    (∀ ip, ip ∈ (HostMerger.merge_hosts hosts).map Host.ip_address ↔
      ip ∈ hosts.map Host.ip_address) ∧
    (∀ h ∈ hosts,
      (hosts.filter (fun h2 => h2.ip_address = h.ip_address)).length = 1 →
      h ∈ HostMerger.merge_hosts hosts) := by
  obtain ⟨hnd, hiff, hcont⟩ := HostMerger.groupsInv_merge hosts
  have hkeys := HostMerger.filterMap_ips (hosts.foldl HostMerger.addToGroups [])
    (fun g hg => HostMerger.mergeGroupEntry_spec hosts g hg)
  rw [HostMerger.merge_hosts_eq]
  refine ⟨by rw [hkeys]; exact hnd, fun ip => by rw [hkeys]; exact hiff ip, ?_⟩
  intro h hh hlen
  have hkey : h.ip_address ∈ (hosts.foldl HostMerger.addToGroups []).map Prod.fst :=
    (hiff h.ip_address).mpr (List.mem_map.mpr ⟨h, hh, rfl⟩)
  obtain ⟨g, hg, hgip⟩ := List.mem_map.mp hkey
  have hfil := hcont g hg
  rw [hgip] at hfil
  have hmemf : h ∈ hosts.filter (fun h2 => decide (h2.ip_address = h.ip_address)) :=
    List.mem_filter.mpr ⟨hh, by simp⟩
  obtain ⟨a, ha⟩ := List.length_eq_one.mp hlen
  rw [ha] at hmemf
  have hha : h = a := List.mem_singleton.mp hmemf
  have hg2 : g.2 = [h] := by rw [hfil, ha, hha]
  have hentry : HostMerger.mergeGroupEntry g = some h := by
    simp [HostMerger.mergeGroupEntry, hg2]
  exact List.mem_filterMap.mpr ⟨g, hg, hentry⟩

/-- First host of the C1 witness batch. -/
def c1_host_a : Host := { ip_address := "192.168.1.1", discovery_method := some .arp }

/-- Second host of the C1 witness batch: its IP appears only once. -/
def c1_host_b : Host :=
  { ip_address := "192.168.1.2", discovery_method := some .snmp, status := .online }

/-- Third host of the C1 witness batch: same IP as the first. -/
def c1_host_c : Host :=
  { ip_address := "192.168.1.1", discovery_method := some .mdns,
    hostname := some "printer" }

theorem C1_one_record_per_ip_witness :
    ((HostMerger.merge_hosts [c1_host_a, c1_host_b, c1_host_c]).map Host.ip_address).Nodup ∧
    (∀ ip, ip ∈ (HostMerger.merge_hosts [c1_host_a, c1_host_b, c1_host_c]).map Host.ip_address ↔
      ip ∈ [c1_host_a, c1_host_b, c1_host_c].map Host.ip_address) ∧
    (∀ h ∈ [c1_host_a, c1_host_b, c1_host_c],
      ([c1_host_a, c1_host_b, c1_host_c].filter
        (fun h2 => h2.ip_address = h.ip_address)).length = 1 →
      h ∈ HostMerger.merge_hosts [c1_host_a, c1_host_b, c1_host_c]) :=
  C1_one_record_per_ip [c1_host_a, c1_host_b, c1_host_c] (List.cons_ne_nil _ _)

/-! ### Claim C2 -/

/-- C2: for every group of observations of the same IP, the merged
record's status is the highest-ranked status among the contributors under
online > unknown > offline; in particular two observations of the same IP
with statuses online and offline merge, in either arrival order, to an
online record. -/
theorem C2_status_highest :
    (∀ hs m, HostMerger._merge_host_group hs = some m →
      m.status ∈ hs.map Host.status ∧
      ∀ x ∈ hs, HostMerger.status_priority x.status
        ≤ HostMerger.status_priority m.status) ∧
    (∀ h1 h2 : Host, h1.ip_address = h2.ip_address →
      h1.status = HostStatus.online → h2.status = HostStatus.offline →
      (HostMerger.merge_hosts [h1, h2]).map Host.status = [HostStatus.online] ∧
      (HostMerger.merge_hosts [h2, h1]).map Host.status = [HostStatus.online]) := by
  refine ⟨fun hs m h => HostMerger.merge_group_status hs m h, ?_⟩
  intro h1 h2 hip hs1 hs2
  constructor
  · obtain ⟨m, hm, hmh⟩ := HostMerger.merge_hosts_pair h1 h2 hip
    obtain ⟨hmem, hmax⟩ := HostMerger.merge_group_status _ m hm
    have honline : m.status = HostStatus.online := by
      have h3 : 3 ≤ HostMerger.status_priority m.status := by
        have := hmax h1 (by simp)
        rwa [hs1] at this
      cases hm2 : m.status
      · rfl
      · rw [hm2] at h3; simp [HostMerger.status_priority] at h3
      · rw [hm2] at h3; simp [HostMerger.status_priority] at h3
    rw [hmh, List.map_cons, List.map_nil, honline]
  · obtain ⟨m, hm, hmh⟩ := HostMerger.merge_hosts_pair h2 h1 hip.symm
    obtain ⟨hmem, hmax⟩ := HostMerger.merge_group_status _ m hm
    have honline : m.status = HostStatus.online := by
      have h3 : 3 ≤ HostMerger.status_priority m.status := by
        have := hmax h1 (by simp)
        rwa [hs1] at this
      cases hm2 : m.status
      · rfl
      · rw [hm2] at h3; simp [HostMerger.status_priority] at h3
      · rw [hm2] at h3; simp [HostMerger.status_priority] at h3
    rw [hmh, List.map_cons, List.map_nil, honline]

/-- Online observation used by the C2 witness. -/
def c2_obs_online : Host :=
  { ip_address := "10.0.0.7", status := .online, discovery_method := some .arp }

/-- Offline observation used by the C2 witness. -/
def c2_obs_offline : Host :=
  { ip_address := "10.0.0.7", status := .offline, discovery_method := some .snmp }

theorem C2_status_highest_witness :
    (HostMerger.merge_hosts [c2_obs_online, c2_obs_offline]).map Host.status
      = [HostStatus.online] ∧
    (HostMerger.merge_hosts [c2_obs_offline, c2_obs_online]).map Host.status
      = [HostStatus.online] :=
  C2_status_highest.2 c2_obs_online c2_obs_offline rfl rfl rfl

/-! ### Claim C3 -/

/-- Observation A of the C3 example: router-API sighting without a MAC. -/
def c3_obs_router : Host :=
  { ip_address := "10.0.0.5", discovery_method := some .routeros_api }

/-- Observation B of the C3 example: ARP sighting carrying the MAC. -/
def c3_obs_arp : Host :=
  { ip_address := "10.0.0.5", mac_address := some "AA:BB:CC:DD:EE:FF",
    discovery_method := some .arp }

/-- C3: the merged record's `discovery_method` is always one of the
contributors' methods, of (weakly) maximal base score; and the concrete
example merges, in either arrival order, to a record carrying B's MAC and
A's (router-API) discovery method. -/
theorem C3_method_trust_maximal :
    (∀ hs m, HostMerger._merge_host_group hs = some m →
      m.discovery_method ∈ hs.map Host.discovery_method ∧
      ∀ x ∈ hs, DataQualityScorer.get_method_quality x.discovery_method
        ≤ DataQualityScorer.get_method_quality m.discovery_method) ∧
    (HostMerger.merge_hosts [c3_obs_router, c3_obs_arp]).map
        (fun h => (h.mac_address, h.discovery_method))
      = [(some "AA:BB:CC:DD:EE:FF", some DiscoveryMethod.routeros_api)] ∧
    (HostMerger.merge_hosts [c3_obs_arp, c3_obs_router]).map
        (fun h => (h.mac_address, h.discovery_method))
      = [(some "AA:BB:CC:DD:EE:FF", some DiscoveryMethod.routeros_api)] := by
  refine ⟨fun hs m h => HostMerger.merge_group_method hs m h, ?_, ?_⟩ <;> decide

/-- Canonical record of the C3 example group (merged form of the pair). -/
def c3_merged : Host :=
  (HostMerger._merge_host_group [c3_obs_router, c3_obs_arp]).getD c3_obs_router

theorem C3_method_trust_maximal_witness :
    c3_merged.discovery_method
        ∈ [c3_obs_router, c3_obs_arp].map Host.discovery_method ∧
    ∀ x ∈ [c3_obs_router, c3_obs_arp],
      DataQualityScorer.get_method_quality x.discovery_method
        ≤ DataQualityScorer.get_method_quality c3_merged.discovery_method :=
  C3_method_trust_maximal.1 [c3_obs_router, c3_obs_arp] c3_merged (by rfl)

/-! ### Claim C5 -/

/-- Seed of the C5 counterexample: highest score, no `last_seen`. -/
def c5_seed : Host :=
  { ip_address := "10.0.0.9", discovery_method := some .routeros_api }

/-- Candidate of the C5 counterexample: lower score, fresh `last_seen`. -/
def c5_candidate : Host :=
  { ip_address := "10.0.0.9", discovery_method := some .arp, last_seen := some 5 }

/-- C5 counterexample: the candidate has a `last_seen` and the canonical
record's is absent, yet the merged record does not adopt it — the merge
fold of `data_quality.py` never touches `last_seen`, so the claimed
adopt-if-newer-or-absent rule fails on this input. -/
theorem C5_counterexample :
    DataQualityScorer.score_host c5_candidate < DataQualityScorer.score_host c5_seed ∧
    c5_seed.last_seen = none ∧
    c5_candidate.last_seen = some 5 ∧
    (HostMerger.merge_hosts [c5_seed, c5_candidate]).map Host.last_seen = [none] ∧
    (HostMerger.merge_hosts [c5_seed, c5_candidate]).map Host.last_seen
      ≠ [some 5] := by
  decide

/-- C5 amended: the in-batch merge fold never adopts a candidate's
`last_seen`; the canonical record's `last_seen` is exactly the
top-scoring (seed) member's value. -/
theorem C5_last_seen_is_seed (hs : List Host) (m : Host)
    (h : HostMerger._merge_host_group hs = some m) :
    (HostMerger.mergeSeed hs).map Host.last_seen = some m.last_seen :=
  HostMerger.merge_group_last_seen hs m h

theorem C5_last_seen_is_seed_witness :
    (HostMerger.mergeSeed [c5_seed, c5_candidate]).map Host.last_seen
      = some (((HostMerger._merge_host_group [c5_seed, c5_candidate]).getD c5_seed).last_seen) :=
  C5_last_seen_is_seed [c5_seed, c5_candidate]
    ((HostMerger._merge_host_group [c5_seed, c5_candidate]).getD c5_seed) (by rfl)

/-! ### Claim C7 -/

/-- Seed of the C7 counterexample: highest score, inference confidence 0. -/
def c7_seed : Host :=
  { ip_address := "10.0.0.3", discovery_method := some .routeros_api,
    inference_confidence := some 0 }

/-- Candidate of the C7 counterexample: lower score, confidence 80. -/
def c7_candidate : Host :=
  { ip_address := "10.0.0.3", discovery_method := some .arp,
    inference_confidence := some 80 }

/-- C7 counterexample: the canonical record's `inference_confidence` is
present (equal to 0), yet a later candidate's value 80 overwrites it —
the Python guard `not merged.get('inference_confidence')` treats 0 as
absent. -/
theorem C7_counterexample :
    DataQualityScorer.score_host c7_candidate < DataQualityScorer.score_host c7_seed ∧
    c7_seed.inference_confidence = some 0 ∧
    (HostMerger.merge_hosts [c7_seed, c7_candidate]).map Host.inference_confidence
      = [some 80] ∧
    (HostMerger.merge_hosts [c7_seed, c7_candidate]).map Host.inference_confidence
      ≠ [some 0] := by
  decide

/-- C7 amended: `inferred_os`, `inferred_device_type` and
`inference_confidence` are adopted from a candidate only while the
canonical record's current value is Python-falsy (absent, empty string,
or — for the confidence — zero): a truthy seed value is never
overwritten, and each final value comes from some contributor.  A
confidence equal to 0, however, counts as absent and can be overwritten. -/
theorem C7_inferred_adopt_only_if_falsy (hs : List Host) (m seed : Host)
    (h : HostMerger._merge_host_group hs = some m)
    (hseed : HostMerger.mergeSeed hs = some seed) :
    (truthyStr seed.inferred_os → m.inferred_os = seed.inferred_os) ∧
    (truthyStr seed.inferred_device_type →
      m.inferred_device_type = seed.inferred_device_type) ∧
    (truthyInt seed.inference_confidence →
      m.inference_confidence = seed.inference_confidence) ∧
    m.inferred_os ∈ hs.map Host.inferred_os ∧
    m.inferred_device_type ∈ hs.map Host.inferred_device_type ∧
    m.inference_confidence ∈ hs.map Host.inference_confidence := by
  obtain ⟨best, rest, hseed2, hm, hperm⟩ := HostMerger.merge_group_seed_fold hs m h
  rw [hseed2] at hseed
  have hbs : best = seed := Option.some.inj hseed
  subst hbs
  subst hm
  obtain ⟨p1, p2, p3⟩ := HostMerger.foldl_merge_inferred_persist rest best
  obtain ⟨m1, m2, m3⟩ := HostMerger.foldl_merge_inferred_mem rest best
  refine ⟨p1, p2, p3, ?_, ?_, ?_⟩
  · exact (hperm.map Host.inferred_os).mem_iff.mp (by simpa using m1)
  · exact (hperm.map Host.inferred_device_type).mem_iff.mp (by simpa using m2)
  · exact (hperm.map Host.inference_confidence).mem_iff.mp (by simpa using m3)

/-- Merged record of the C7 witness group. -/
def c7_merged : Host :=
  (HostMerger._merge_host_group [c7_candidate, c7_seed]).getD c7_seed

theorem C7_inferred_adopt_only_if_falsy_witness :
    (truthyStr c7_seed.inferred_os →
      c7_merged.inferred_os = c7_seed.inferred_os) ∧
    (truthyStr c7_seed.inferred_device_type →
      c7_merged.inferred_device_type = c7_seed.inferred_device_type) ∧
    (truthyInt c7_seed.inference_confidence →
      c7_merged.inference_confidence = c7_seed.inference_confidence) ∧
    c7_merged.inferred_os ∈ [c7_candidate, c7_seed].map Host.inferred_os ∧
    c7_merged.inferred_device_type
      ∈ [c7_candidate, c7_seed].map Host.inferred_device_type ∧
    c7_merged.inference_confidence
      ∈ [c7_candidate, c7_seed].map Host.inference_confidence :=
  C7_inferred_adopt_only_if_falsy [c7_candidate, c7_seed] c7_merged c7_seed
    (by rfl) (by rfl)

/-! ### Claim C4 -/

/-- Observation with the 4-segment device type of the specificity example
(and the higher quality score, so it seeds the canonical record). -/
def c4_obs_dhcp : Host :=
  { ip_address := "10.0.0.5", device_type := some "dhcp_lease_active_mobile_device",
    discovery_method := some .routeros_api }

/-- Observation with the 2-segment device type `arp_entry`. -/
def c4_obs_arp : Host :=
  { ip_address := "10.0.0.5", device_type := some "arp_entry",
    discovery_method := some .arp }

/-- C4 evaluation at the failing input: the multi-segment device type
loses.  `_is_more_specific_device_type` runs its preferred-prefix scan
even when the candidate has strictly fewer compound-name segments, so it
judges `"arp_entry"` more specific than the 4-segment value (both
directions of the relation return true, which no specificity order can),
and the merged record for the spec's own example carries `"arp_entry"` —
in either arrival order, and although the 4-segment observation has the
higher QualityScorer score. -/
theorem C4_eval_at_failing_input :
    DataQualityScorer.score_host c4_obs_arp < DataQualityScorer.score_host c4_obs_dhcp ∧
    HostMerger._is_more_specific_device_type
      (some "arp_entry") (some "dhcp_lease_active_mobile_device") = true ∧
    HostMerger._is_more_specific_device_type
      (some "dhcp_lease_active_mobile_device") (some "arp_entry") = true ∧
    (HostMerger.merge_hosts [c4_obs_dhcp, c4_obs_arp]).map Host.device_type
      = [some "arp_entry"] ∧
    (HostMerger.merge_hosts [c4_obs_arp, c4_obs_dhcp]).map Host.device_type
      = [some "arp_entry"] ∧
    (HostMerger.merge_hosts [c4_obs_dhcp, c4_obs_arp]).map Host.device_type
      ≠ [some "dhcp_lease_active_mobile_device"] := by
  decide

/-! ### Claim C8 -/

/-- The six optional scored fields of claim C8. -/
inductive ScoredField where
  | mac_address
  | hostname
  | vendor
  | device_type
  | os_info
  | notes
deriving Repr, DecidableEq

/-- Read the given optional scored field of a host. -/
def scoredFieldGet (h : Host) : ScoredField → Option String
  | .mac_address => h.mac_address
  | .hostname => h.hostname
  | .vendor => h.vendor
  | .device_type => h.device_type
  | .os_info => h.os_info
  | .notes => h.notes

/-- Replace the given optional scored field of a host. -/
def scoredFieldSet (h : Host) : ScoredField → Option String → Host
  | .mac_address, v => { h with mac_address := v }
  | .hostname, v => { h with hostname := v }
  | .vendor, v => { h with vendor := v }
  | .device_type, v => { h with device_type := v }
  | .os_info, v => { h with os_info := v }
  | .notes, v => { h with notes := v }

/-- C8: filling any previously empty optional scored field with any
non-empty value never decreases the QualityScorer score: the field's
fixed bonus is gained and the two conditional bonuses (long os_info,
compound device_type) can only appear, never disappear. -/
theorem C8_score_monotone (h : Host) (f : ScoredField) (v : String)
    (hemp : truthyStr (scoredFieldGet h f) = false) (hv : v ≠ "") :
    DataQualityScorer.score_host h
      ≤ DataQualityScorer.score_host (scoredFieldSet h f (some v)) := by
  have hvE : v.isEmpty = false := by
    rw [← Bool.not_eq_true]
    intro hE
    exact hv ((String.isEmpty_iff v).mp hE)
  have hvt : truthyStr (some v) = true := by simp [truthyStr, hvE]
  cases f <;>
    simp only [scoredFieldGet] at hemp <;>
    simp [scoredFieldSet, DataQualityScorer.score_host, hemp, hvt] <;>
    omega

/-- Host of the C8 witness: an ARP observation with no MAC yet. -/
def c8_host : Host := { ip_address := "10.0.0.2", discovery_method := some .arp }

theorem C8_score_monotone_witness :
    DataQualityScorer.score_host c8_host
      ≤ DataQualityScorer.score_host
          (scoredFieldSet c8_host ScoredField.mac_address (some "AA:BB:CC:DD:EE:FF")) :=
  C8_score_monotone c8_host ScoredField.mac_address "AA:BB:CC:DD:EE:FF"
    (by rfl) (by decide)

/-! ### Storage collaborator (app/core/redis_client.py) -/

namespace RedisClient

/-- Status priority used by the store's merge
(`RedisClient._is_better_status`, an identical copy of the table in
`data_quality.py`). -/
def status_priority : HostStatus → Nat
  | .online => 3
  | .unknown => 2
  | .offline => 1

/-- Whether the new status outranks the current one
(`RedisClient._is_better_status`). -/
def _is_better_status (new_status current_status : HostStatus) : Bool :=
  status_priority new_status > status_priority current_status

/-- Device-type specificity table of the store's merge
(`RedisClient._is_more_specific_device_type`): an exact-match score
lookup (`specificity_scores.get(type, 0)`), unlike the segment-counting
rule in `data_quality.py`. -/
def specificity_scores (t : String) : Nat :=
  if t = "dhcp_lease" then 10
  else if t = "arp_entry" then 8
  else if t = "dhcp_server" then 7
  else if t = "router" then 6
  else if t = "switch" then 5
  else if t = "printer" then 4
  else if t = "computer" then 3
  else if t = "mobile" then 2
  else if t = "unknown_device" then 1
  else 0

/-- Whether the new device type is judged more specific by the store
(`RedisClient._is_more_specific_device_type`). -/
def _is_more_specific_device_type (new_type current_type : Option String) : Bool :=
  if !truthyStr new_type then false
  else if !truthyStr current_type then true
  else
    let n := new_type.getD ""
    let c := current_type.getD ""
    let new_score := specificity_scores n
    let current_score := specificity_scores c
    if new_score = current_score
        && n.toList.contains '_' && !(c.toList.contains '_') then true
    else new_score > current_score

/-- The store's upsert-merge (`RedisClient.merge_host_data`), modelled as
the pure record transformation it performs: with no persisted record the
new record is stored; with a persisted record, if the new record's
quality score is strictly higher the new record replaces it wholesale
(`set_host(new_host_data)`), otherwise individual fields of the persisted
record are updated by the per-field rules (note: unlike the in-batch
fold, there is a last_seen rule and no discovery_method rule). -/
def merge_host_data (existing : Option Host) (new_host : Host) : Host :=
  match existing with
  | none => new_host
  | some ex =>
    if DataQualityScorer.score_host new_host > DataQualityScorer.score_host ex then
      new_host
    else
      let st := if _is_better_status new_host.status ex.status
        then new_host.status else ex.status
      let ls := match new_host.last_seen, ex.last_seen with
        | some n, some e => if n > e then some n else some e
        | some n, none => some n
        | none, e => e
      let mac := if !truthyStr ex.mac_address && truthyStr new_host.mac_address
        then new_host.mac_address else ex.mac_address
      let hn := if !truthyStr ex.hostname
          || (truthyStr new_host.hostname
              && optStrLen new_host.hostname > optStrLen ex.hostname)
        then new_host.hostname else ex.hostname
      let vd := if !truthyStr ex.vendor && truthyStr new_host.vendor
        then new_host.vendor else ex.vendor
      let dt := if !truthyStr ex.device_type
          || _is_more_specific_device_type new_host.device_type ex.device_type
        then new_host.device_type else ex.device_type
      let osi := if !truthyStr ex.os_info
          || (truthyStr new_host.os_info
              && optStrLen new_host.os_info > optStrLen ex.os_info)
        then new_host.os_info else ex.os_info
      let nt := if !truthyStr ex.notes && truthyStr new_host.notes
        then new_host.notes else ex.notes
      let ios := if !truthyStr ex.inferred_os && truthyStr new_host.inferred_os
        then new_host.inferred_os else ex.inferred_os
      let idt := if !truthyStr ex.inferred_device_type
          && truthyStr new_host.inferred_device_type
        then new_host.inferred_device_type else ex.inferred_device_type
      let ic := if !truthyInt ex.inference_confidence
          && truthyInt new_host.inference_confidence
        then new_host.inference_confidence else ex.inference_confidence
      { ex with
        status := st
        last_seen := ls
        mac_address := mac
        hostname := hn
        vendor := vd
        device_type := dt
        os_info := osi
        notes := nt
        inferred_os := ios
        inferred_device_type := idt
        inference_confidence := ic }

end RedisClient

/-! ### Claim C6 -/

/-- Persisted record of the C6 counterexample: ARP-sourced, carries the
MAC, lower quality score. -/
def c6_persisted : Host :=
  { ip_address := "10.0.0.9", mac_address := some "AA:BB:CC:DD:EE:FF",
    discovery_method := some .arp }

/-- Fresh batch record of the C6 counterexample: router-API-sourced with
a hostname, higher quality score, but no MAC. -/
def c6_new : Host :=
  { ip_address := "10.0.0.9", hostname := some "server-1",
    discovery_method := some .routeros_api }

/-- C6 counterexample: when the new record outscores the persisted one,
the store replaces the persisted record wholesale, so the persisted
`mac_address` is replaced by the new record's empty value, while the
§4.4 in-batch fold over the same two records keeps the MAC — the store's
upsert-merge does not compute the same result as the in-batch fold and
does overwrite wholesale. -/
theorem C6_counterexample :
    DataQualityScorer.score_host c6_persisted < DataQualityScorer.score_host c6_new ∧
    c6_persisted.mac_address = some "AA:BB:CC:DD:EE:FF" ∧
    (RedisClient.merge_host_data (some c6_persisted) c6_new).mac_address = none ∧
    (HostMerger.merge_hosts [c6_persisted, c6_new]).map Host.mac_address
      = [some "AA:BB:CC:DD:EE:FF"] ∧
    HostMerger.merge_hosts [c6_persisted, c6_new]
      ≠ [RedisClient.merge_host_data (some c6_persisted) c6_new] := by
  decide

/-- C6 amended: the store's upsert-merge is per-field only when the new
record's score does not exceed the persisted record's — in that case a
persisted non-empty `mac_address` is never replaced; when the new record
scores strictly higher, the persisted record is replaced wholesale. -/
theorem C6_store_merge_behaviour (ex nw : Host) :
    (DataQualityScorer.score_host ex < DataQualityScorer.score_host nw →
      RedisClient.merge_host_data (some ex) nw = nw) ∧
    (DataQualityScorer.score_host nw ≤ DataQualityScorer.score_host ex →
      truthyStr ex.mac_address = true →
      (RedisClient.merge_host_data (some ex) nw).mac_address = ex.mac_address) := by
  constructor
  · intro hlt
    simp [RedisClient.merge_host_data, hlt]
  · intro hle hmac
    have hnot : ¬ (DataQualityScorer.score_host ex < DataQualityScorer.score_host nw) :=
      Nat.not_lt.mpr hle
    simp [RedisClient.merge_host_data, hnot, hmac]

/-- Persisted record of the C6 witness for the per-field branch: high
score and a MAC. -/
def c6w_persisted : Host :=
  { ip_address := "10.0.0.8", mac_address := some "11:22:33:44:55:66",
    discovery_method := some .routeros_api }

/-- New record of the C6 witness for the per-field branch: low score, no
MAC. -/
def c6w_new : Host := { ip_address := "10.0.0.8", discovery_method := some .arp }

theorem C6_store_merge_behaviour_witness :
    RedisClient.merge_host_data (some c6_persisted) c6_new = c6_new ∧
    (RedisClient.merge_host_data (some c6w_persisted) c6w_new).mac_address
      = c6w_persisted.mac_address :=
  ⟨(C6_store_merge_behaviour c6_persisted c6_new).1 (by decide),
   (C6_store_merge_behaviour c6w_persisted c6w_new).2 (by decide) (by decide)⟩

/-! ### Inference classifier (app/services/dhcp_analyzer.py) -/

namespace DHCPAnalyzer

/-- Python `s.lower()` (ASCII case folding, which covers the network
identifiers this code sees). -/
def strLower (s : String) : String := String.mk (s.toList.map Char.toLower)

/-- Python `s.upper()`. -/
def strUpper (s : String) : String := String.mk (s.toList.map Char.toUpper)

/-- Whether `needle` occurs as a contiguous run inside `hay`. -/
def listIsInfixOf (needle : List Char) : List Char → Bool
  | [] => needle.isEmpty
  | c :: t => needle.isPrefixOf (c :: t) || listIsInfixOf needle t

/-- Python `needle in hay` on strings. -/
def strContains (hay needle : String) : Bool :=
  listIsInfixOf needle.toList hay.toList

/-- Python `s.strip()`: drop whitespace from both ends. -/
def stripChars (l : List Char) : List Char :=
  ((l.dropWhile Char.isWhitespace).reverse.dropWhile Char.isWhitespace).reverse

/-- Model of `re.search(key + r'\s*([^;]+)', s, re.IGNORECASE)` for a
literal key: scan left to right for a case-insensitive occurrence of the
key followed by at least one non-`;` character; the captured group is
everything up to the next `;` (backtracking over `\s*` makes the group
absorb a leading whitespace run when nothing else follows, which the
subsequent `.strip()` deletes again, so taking the whole segment and
stripping is the same value). -/
def extractAfterKey (key : List Char) : List Char → Option (List Char)
  | [] => none
  | c :: cs =>
    if key.isPrefixOf ((c :: cs).map Char.toLower) then
      let seg := ((c :: cs).drop key.length).takeWhile (fun ch => ch ≠ ';')
      if seg.isEmpty then extractAfterKey key cs else some seg
    else extractAfterKey key cs

/-- Extract the `Client-ID: ...;` value from the OS-info blob
(`DHCPAnalyzer._extract_client_id`); empty string when absent. -/
def _extract_client_id (os_info : String) : String :=
  match extractAfterKey "client-id:".toList os_info.toList with
  | none => ""
  | some seg => String.mk (stripChars seg)

/-- Extract the `Comment: ...;` value (`DHCPAnalyzer._extract_comment`). -/
def _extract_comment (os_info : String) : String :=
  match extractAfterKey "comment:".toList os_info.toList with
  | none => ""
  | some seg => String.mk (stripChars seg)

/-- Extract the `Class-ID: ...;` value (`DHCPAnalyzer._extract_class_id`). -/
def _extract_class_id (os_info : String) : String :=
  match extractAfterKey "class-id:".toList os_info.toList with
  | none => ""
  | some seg => String.mk (stripChars seg)

/-- Static OUI→vendor table (`DHCPAnalyzer.OUI_VENDORS`), as the lookup
`OUI_VENDORS.get(oui)`. -/
def OUI_VENDORS (oui : String) : Option String :=
  if oui = "000000" then some "Xerox"
  else if oui = "00000C" then some "Cisco"
  else if oui = "00014F" then some "Dell"
  else if oui = "000163" then some "Apple"
  else if oui = "0003FF" then some "Microsoft"
  else if oui = "000420" then some "Intel"
  else if oui = "00059A" then some "HP"
  else if oui = "000A95" then some "Netgear"
  else if oui = "000C29" then some "VMware"
  else if oui = "00155D" then some "Microsoft Hyper-V"
  else if oui = "00163E" then some "Xen"
  else if oui = "001A2B" then some "TP-Link"
  else if oui = "001B44" then some "Cisco Systems"
  else if oui = "001C14" then some "VMware"
  else if oui = "001C42" then some "Parallels"
  else if oui = "005056" then some "VMware"
  else if oui = "080027" then some "Oracle VirtualBox"
  else if oui = "0A0027" then some "Oracle VirtualBox"
  else if oui = "14DDA9" then some "ASUSTek"
  else if oui = "1488A9" then some "ASUSTeK Computer"
  else if oui = "1AC3AF" then some "Apple"
  else if oui = "525400" then some "QEMU"
  else if oui = "7085C2" then some "Dell"
  else if oui = "80CA4B" then some "Xiaomi"
  else if oui = "A8A159" then some "LG Electronics"
  else if oui = "D850E6" then some "TP-Link"
  else if oui = "D85ED3" then some "Apple"
  else none

/-- Vendor from the MAC OUI (`DHCPAnalyzer._detect_vendor_from_mac`):
too-short MACs yield nothing; otherwise the first three colon-separated
parts are joined, upper-cased and looked up. -/
def _detect_vendor_from_mac (mac_address : String) : Option String :=
  if mac_address.isEmpty || mac_address.length < 8 then none
  else
    let mac_parts := splitOnChar ':' mac_address.toList
    if mac_parts.length ≥ 3 then
      OUI_VENDORS (strUpper (String.mk ((mac_parts.take 3).flatten)))
    else none

/-- OS from the DHCP class id (`DHCPAnalyzer._detect_os_from_class_id`):
first-match-wins substring signatures. -/
def _detect_os_from_class_id (class_id : String) : Option String :=
  if class_id.isEmpty then none
  else
    let cl := strLower class_id
    if strContains cl "msft" then
      if strContains cl "5.0" then some "Windows 2000"
      else if strContains cl "6.0" then some "Windows Vista/Server 2008"
      else if strContains cl "6.1" then some "Windows 7/Server 2008 R2"
      else if strContains cl "6.2" then some "Windows 8/Server 2012"
      else if strContains cl "6.3" then some "Windows 8.1/Server 2012 R2"
      else if strContains cl "10.0" then some "Windows 10/11/Server 2016+"
      else some "Windows (Unknown Version)"
    else if strContains cl "android" then
      if strContains cl "dhcp-13" then some "Android 13+"
      else if strContains cl "dhcp-12" then some "Android 12"
      else if strContains cl "dhcp-11" then some "Android 11"
      else if strContains cl "dhcp-10" then some "Android 10"
      else some "Android (Unknown Version)"
    else if strContains cl "iphone" || strContains cl "ipad" then some "iOS"
    else if strContains cl "linux" || strContains cl "ubuntu"
        || strContains cl "debian" then some "Linux"
    else if strContains cl "routeros" || strContains cl "mikrotik" then some "RouterOS"
    else if strContains cl "udhcp" then some "Linux (udhcp client)"
    else if strContains cl "lguap" then some "LG U+ AP (Custom)"
    else none

/-- Lower-case hexadecimal digit as in the character class `[0-9a-f]`. -/
def isLowerHexDigit (c : Char) : Bool :=
  c.isDigit || ('a' ≤ c && c ≤ 'f')

/-- Consume one `hh:` group of the raw-MAC client-id pattern. -/
def hexPairColon : List Char → Option (List Char)
  | a :: b :: ':' :: rest =>
    if isLowerHexDigit a && isLowerHexDigit b then some rest else none
  | _ => none

/-- Full match of `^1:([0-9a-f]{2}:){5}[0-9a-f]{1,2}$` against the raw
(uncased) client id. -/
def isRawMacClientId (s : List Char) : Bool :=
  match s with
  | '1' :: ':' :: r0 =>
    match hexPairColon r0 with
    | none => false
    | some r1 =>
      match hexPairColon r1 with
      | none => false
      | some r2 =>
        match hexPairColon r2 with
        | none => false
        | some r3 =>
          match hexPairColon r3 with
          | none => false
          | some r4 =>
            match hexPairColon r4 with
            | none => false
            | some r5 =>
              match r5 with
              | [a] => isLowerHexDigit a
              | [a, b] => isLowerHexDigit a && isLowerHexDigit b
              | _ => false
  | _ => false

/-- Prefix match of `^msft \d+\.\d+` against the lowered client id. -/
def isMsftVersionPrefix (s : List Char) : Bool :=
  if ['m', 's', 'f', 't', ' '].isPrefixOf s then
    let r := s.drop 5
    let ds := r.takeWhile Char.isDigit
    if ds.isEmpty then false
    else
      match r.drop ds.length with
      | '.' :: r2 => !(r2.takeWhile Char.isDigit).isEmpty
      | _ => false
  else false

/-- OS from the DHCP client id (`DHCPAnalyzer._detect_os_from_client_id`):
a raw-MAC-shaped client id is disambiguated by the already-resolved
vendor, then pattern fallbacks. -/
def _detect_os_from_client_id (client_id : String) (vendor : Option String) :
    Option String :=
  if client_id.isEmpty then none
  else
    let cl := strLower client_id
    if isRawMacClientId client_id.toList then
      match vendor with
      | some v =>
        let vl := strLower v
        if strContains vl "apple" then some "macOS"
        else if strContains vl "intel" || strContains vl "dell"
            || strContains vl "hp" then some "Windows"
        else if strContains vl "xiaomi" then some "Android"
        else some "Windows"
      | none => some "Windows"
    else if isMsftVersionPrefix cl.toList then some "Windows"
    else if strContains cl "android" || strContains cl "dhcp-1" then some "Android"
    else if strContains cl "iphone" || strContains cl "ipad" then some "iOS"
    else if strContains cl "dhcpcd" || strContains cl "udhcp"
        || strContains cl "isc-dhclient" then some "Linux"
    else none

/-- Device type from all signals
(`DHCPAnalyzer._determine_enhanced_device_type`): ordered keyword scans,
first match wins, with `"dhcp_client"` as the default. -/
def _determine_enhanced_device_type (hostname client_id comment class_id : String)
    (os_info : Option String) : String :=
  let hl := strLower hostname
  let cil := strLower client_id
  let col := strLower comment
  let cll := strLower class_id
  if ["router", "gateway", "switch", "ap-", "access-point", "rt-",
      "ac3200"].any (fun kw => strContains hl kw) then "network_device"
  else if ["iphone", "ipad", "android", "mobile", "phone",
      "tablet"].any (fun kw => strContains hl kw) then "mobile_device"
  else if ["pc", "laptop", "desktop", "computer", "workstation",
      "right-computer"].any (fun kw => strContains hl kw) then "computer"
  else if ["server", "srv", "nas", "backup"].any (fun kw => strContains hl kw) then
    "server"
  else if ["iot", "smart", "sensor", "camera",
      "doorbell"].any (fun kw => strContains hl kw) then "iot_device"
  else if ["ps4", "ps5", "xbox", "nintendo",
      "gaming"].any (fun kw => strContains hl kw) then "gaming_device"
  else if strContains cil "android" then "mobile_device"
  else if strContains cil "iphone" || strContains cil "ipad" then "mobile_device"
  else if ["printer", "print"].any (fun kw => strContains col kw) then "printer"
  else if ["tv", "television", "smart-tv"].any (fun kw => strContains col kw) then
    "media_device"
  else if strContains cll "msft" then "computer"
  else if strContains cll "android" then "mobile_device"
  else if strContains cll "iphone" || strContains cll "ipad" then "mobile_device"
  else if (match os_info with
      | some o => strContains (strLower o) "windows"
      | none => false) then "computer"
  else if (match os_info with
      | some o => strContains (strLower o) "android"
      | none => false) then "mobile_device"
  else if (match os_info with
      | some o => strContains (strLower o) "ios"
      | none => false) then "mobile_device"
  else if (match os_info with
      | some o => strContains (strLower o) "linux"
      | none => false) then "computer"
  else if ["win-", "desktop-", "laptop-"].any (fun p => strStartsWith hl p) then
    "computer"
  else if ["android-", "iphone-", "ipad-"].any (fun p => strStartsWith hl p) then
    "mobile_device"
  else "dhcp_client"

/-- Confidence of a detection (`DHCPAnalyzer._calculate_confidence`):
fixed bonuses for present signals, larger bonuses for resolved OS and
vendor, keyword bonuses on the hostname, capped at 100. -/
def _calculate_confidence (hostname client_id comment class_id : String)
    (os_detected vendor : Option String) : Nat :=
  let hl := strLower hostname
  let confidence :=
    (if !hostname.isEmpty then 10 else 0)
    + (if !client_id.isEmpty then 20 else 0)
    + (if !comment.isEmpty then 15 else 0)
    + (if !class_id.isEmpty then 25 else 0)
    + (if os_detected.isSome then 30 else 0)
    + (if vendor.isSome then 20 else 0)
    + (if ["router", "gateway", "switch",
        "ap-"].any (fun kw => strContains hl kw) then 15 else 0)
    + (if ["iphone", "ipad",
        "android"].any (fun kw => strContains hl kw) then 15 else 0)
    + (if ["pc", "laptop",
        "desktop"].any (fun kw => strContains hl kw) then 15 else 0)
  min confidence 100

/-- Enhanced device detection (`DHCPAnalyzer._enhanced_device_detection`):
vendor from the MAC, OS from class id with client-id fallback, then the
device-type scan; returns (device type, OS, vendor). -/
def _enhanced_device_detection (hostname client_id comment class_id mac_address :
    String) : String × Option String × Option String :=
  let vendor := _detect_vendor_from_mac mac_address
  let os1 := _detect_os_from_class_id class_id
  let os_info := match os1 with
    | some o => some o
    | none => _detect_os_from_client_id client_id vendor
  let device_type :=
    _determine_enhanced_device_type hostname client_id comment class_id os_info
  (device_type, os_info, vendor)

/-- Input of the analyzer: the `lease_data` dict built by the RouterOS
provider, restricted to the keys the analyzer reads
(`lease_data.get('mac_address', '').upper()`,
`lease_data.get('hostname', '') or ''`,
`lease_data.get('os_info', '') or ''`); a missing or `None` value is the
empty string. -/
structure LeaseData where
  mac_address : String := ""
  hostname : String := ""
  os_info : String := ""
deriving Repr, DecidableEq

/-- Output of the analyzer: the `inferred_info` dict after the update in
`analyze_dhcp_lease` (all four keys are always written). -/
structure InferredInfo where
  os : Option String
  device_type : String
  vendor : Option String
  confidence : Nat
deriving Repr, DecidableEq

/-- The enhanced DHCP lease analysis (`DHCPAnalyzer.analyze_dhcp_lease`):
extract the embedded client id, comment and class id from the OS-info
blob, run the enhanced detection and score the confidence. -/
def analyze_dhcp_lease (lease_data : LeaseData) : InferredInfo :=
  let mac_address := strUpper lease_data.mac_address
  let hostname := lease_data.hostname
  let client_id := _extract_client_id lease_data.os_info
  let comment := _extract_comment lease_data.os_info
  let class_id := _extract_class_id lease_data.os_info
  match _enhanced_device_detection hostname client_id comment class_id mac_address with
  | (device_type, os_detected, vendor) =>
    { os := os_detected
      device_type := device_type
      vendor := vendor
      confidence :=
        _calculate_confidence hostname client_id comment class_id os_detected vendor }

end DHCPAnalyzer

/-! ### Claim C9 -/

/-- C9: the classifier is a pure function — equal lease inputs give equal
outputs — and its confidence is always within [0, 100]: every additive
contribution is non-negative and the total is capped by `min _ 100`. -/
theorem C9_classifier_pure_bounded :
    (∀ l1 l2 : DHCPAnalyzer.LeaseData, l1 = l2 →
      DHCPAnalyzer.analyze_dhcp_lease l1 = DHCPAnalyzer.analyze_dhcp_lease l2) ∧
    (∀ l : DHCPAnalyzer.LeaseData,
      0 ≤ (DHCPAnalyzer.analyze_dhcp_lease l).confidence ∧
      (DHCPAnalyzer.analyze_dhcp_lease l).confidence ≤ 100) := by
  refine ⟨fun l1 l2 h => by rw [h], fun l => ⟨Nat.zero_le _, ?_⟩⟩
  show (DHCPAnalyzer.analyze_dhcp_lease l).confidence ≤ 100
  unfold DHCPAnalyzer.analyze_dhcp_lease
  dsimp only
  exact Nat.min_le_right _ _

/-- Concrete DHCP lease of the C9 witness. -/
def c9_lease : DHCPAnalyzer.LeaseData :=
  { mac_address := "00:0c:29:ab:cd:ef", hostname := "desktop-john",
    os_info := "Client-ID: 1:00:0c:29:ab:cd:ef; Class-ID: MSFT 10.0" }

theorem C9_classifier_pure_bounded_witness :
    DHCPAnalyzer.analyze_dhcp_lease c9_lease = DHCPAnalyzer.analyze_dhcp_lease c9_lease ∧
    0 ≤ (DHCPAnalyzer.analyze_dhcp_lease c9_lease).confidence ∧
    (DHCPAnalyzer.analyze_dhcp_lease c9_lease).confidence ≤ 100 :=
  ⟨C9_classifier_pure_bounded.1 c9_lease c9_lease rfl,
   C9_classifier_pure_bounded.2 c9_lease⟩

/-! ### Discovery orchestration (app/services/discovery_service.py) -/

namespace DiscoveryService

/-- One provider invocation inside a discovery cycle: whether the
provider is one of the two high-priority router-management providers
(`RouterOSAPIDiscovery` / `RouterOSRestDiscovery`), and its outcome —
`none` models `method.discover` raising (the `except` branch logs and
`continue`s), `some hosts` a normal return. -/
structure ProviderRun where
  high_priority : Bool
  result : Option (List Host)
deriving Repr, DecidableEq

/-- Hosts a provider contributes to the accumulator (nothing if it
raised). -/
def providerContrib (p : ProviderRun) : List Host := p.result.getD []

/-- Contribution of a provider to the high-priority counter. -/
def hpContrib (p : ProviderRun) : Nat :=
  if p.high_priority then (providerContrib p).length else 0

/-- The provider loop of `DiscoveryService.run_discovery`: append each
successful provider's hosts to the accumulator, bump the high-priority
counter for router-management providers, and after each successful
provider stop when early termination is enabled and both the
high-priority count and the total count have reached the threshold;
a raising provider is skipped (including the termination check). -/
def discoverLoop (early_term : Bool) (threshold : Nat) :
    List ProviderRun → List Host → Nat → List Host
  | [], acc, _ => acc
  | p :: ps, acc, hp =>
    match p.result with
    | none => discoverLoop early_term threshold ps acc hp
    | some hosts =>
      let acc2 := acc ++ hosts
      let hp2 := if p.high_priority then hp + hosts.length else hp
      if early_term && decide (threshold ≤ hp2) && decide (threshold ≤ acc2.length)
      then acc2
      else discoverLoop early_term threshold ps acc2 hp2

/-- `DiscoveryService.run_discovery`: run the provider loop from an empty
accumulator, then (for a non-empty accumulator) merge the whole
accumulated list with `HostMerger.merge_hosts` (merging an empty list is
the identity, so the emptiness guard is observationally irrelevant). -/
def run_discovery (early_term : Bool) (threshold : Nat)
    (providers : List ProviderRun) : List Host :=
  let discovered := discoverLoop early_term threshold providers [] 0
  if discovered.isEmpty then discovered
  else HostMerger.merge_hosts discovered

/-- The claim's stop condition, stated independently of the loop via
prefix sums: provider `j` completed successfully, early termination is
enabled, and after provider `j` both the high-priority count and the
total accumulated count (each offset by the counts `h`, `t` already
accumulated before this provider list) have reached the threshold. -/
def stopCondB (early_term : Bool) (threshold t h : Nat)
    (ps : List ProviderRun) (j : Nat) : Bool :=
  (match ps[j]? with
    | some p => p.result.isSome
    | none => false)
  && early_term
  && decide (threshold ≤ h + ((ps.take (j + 1)).map hpContrib).sum)
  && decide (threshold ≤ t + (((ps.take (j + 1)).map providerContrib).flatten).length)

/-- Index (exclusive) of the provider after which the loop stops: one
past the first index satisfying the stop condition, or the whole list
when no provider triggers it. -/
def cutIndex (early_term : Bool) (threshold t h : Nat)
    (ps : List ProviderRun) : Nat :=
  match (List.range ps.length).find? (stopCondB early_term threshold t h ps) with
  | some j => j + 1
  | none => ps.length

theorem stopCondB_zero (e : Bool) (θ t h : Nat) (p : ProviderRun)
    (ps : List ProviderRun) :
    stopCondB e θ t h (p :: ps) 0 =
      (p.result.isSome && e && decide (θ ≤ h + hpContrib p)
        && decide (θ ≤ t + (providerContrib p).length)) := by
  simp [stopCondB]

theorem stopCondB_succ (e : Bool) (θ t h : Nat) (p : ProviderRun)
    (ps : List ProviderRun) (j : Nat) :
    stopCondB e θ t h (p :: ps) (j + 1) =
      stopCondB e θ (t + (providerContrib p).length) (h + hpContrib p) ps j := by
  simp [stopCondB, List.take_succ_cons, Nat.add_assoc]

theorem cutIndex_cons (e : Bool) (θ t h : Nat) (p : ProviderRun)
    (ps : List ProviderRun) :
    cutIndex e θ t h (p :: ps) =
      if stopCondB e θ t h (p :: ps) 0 = true then 1
      else 1 + cutIndex e θ (t + (providerContrib p).length) (h + hpContrib p) ps := by
  unfold cutIndex
  rw [List.length_cons, List.range_succ_eq_map, List.find?_cons]
  have hq : (stopCondB e θ t h (p :: ps)) ∘ Nat.succ
      = stopCondB e θ (t + (providerContrib p).length) (h + hpContrib p) ps := by
    funext j
    exact stopCondB_succ e θ t h p ps j
  by_cases h0 : stopCondB e θ t h (p :: ps) 0 = true
  · rw [h0]
    simp
  · rw [Bool.not_eq_true] at h0
    rw [h0, if_neg (by simp [h0])]
    rw [List.find?_map, hq]
    cases hfind : List.find?
        (stopCondB e θ (t + (providerContrib p).length) (h + hpContrib p) ps)
        (List.range ps.length) with
    | none => simp [hfind, Nat.add_comm]
    | some j => simp [hfind, Nat.add_comm]

/-- Extensional characterization of the provider loop: starting from an
accumulator of `t` hosts and a high-priority count `h`, the loop returns
the accumulator extended by the contributions of exactly the providers
up to the cut index — one past the first provider satisfying the stop
condition, or all of them. -/
theorem discoverLoop_eq_cut (e : Bool) (θ : Nat) (ps : List ProviderRun) :
    ∀ (acc : List Host) (hp : Nat),
      discoverLoop e θ ps acc hp =
        acc ++ ((ps.take (cutIndex e θ acc.length hp ps)).map providerContrib).flatten := by
  induction ps with
  | nil =>
    intro acc hp
    simp [discoverLoop, cutIndex]
  | cons p ps ih =>
    intro acc hp
    rw [cutIndex_cons]
    cases hres : p.result with
    | none =>
      have hc : providerContrib p = [] := by simp [providerContrib, hres]
      have hh : hpContrib p = 0 := by simp [hpContrib, hc]
      have h0 : stopCondB e θ acc.length hp (p :: ps) 0 = false := by
        rw [stopCondB_zero]
        simp [hres]
      rw [h0]
      simp only [Bool.false_eq_true, if_false, hc, hh, List.length_nil, Nat.add_zero]
      have hloop : discoverLoop e θ (p :: ps) acc hp = discoverLoop e θ ps acc hp := by
        simp [discoverLoop, hres]
      rw [hloop, ih acc hp, Nat.add_comm 1, List.take_succ_cons]
      simp [hc]
    | some hosts =>
      have hc : providerContrib p = hosts := by simp [providerContrib, hres]
      have hhp : hp + hpContrib p = (if p.high_priority then hp + hosts.length else hp) := by
        cases hpri : p.high_priority <;> simp [hpContrib, hc, hpri]
      have hb : stopCondB e θ acc.length hp (p :: ps) 0
          = (e && decide (θ ≤ (if p.high_priority then hp + hosts.length else hp))
              && decide (θ ≤ (acc ++ hosts).length)) := by
        rw [stopCondB_zero, hc, hhp]
        simp [hres, List.length_append]
      have hloop : discoverLoop e θ (p :: ps) acc hp =
          (if e && decide (θ ≤ (if p.high_priority then hp + hosts.length else hp))
              && decide (θ ≤ (acc ++ hosts).length)
           then acc ++ hosts
           else discoverLoop e θ ps (acc ++ hosts)
             (if p.high_priority then hp + hosts.length else hp)) := by
        simp [discoverLoop, hres]
      cases hB : (e && decide (θ ≤ (if p.high_priority then hp + hosts.length else hp))
          && decide (θ ≤ (acc ++ hosts).length)) with
      | true =>
        rw [hloop, if_pos hB, hb, hB, if_pos rfl, List.take_succ_cons,
          List.take_zero]
        simp [hc]
      | false =>
        have h1 : ¬((e && decide (θ ≤ (if p.high_priority then hp + hosts.length else hp))
            && decide (θ ≤ (acc ++ hosts).length)) = true) := by
          rw [hB]
          exact Bool.false_ne_true
        rw [hloop, if_neg h1, hb, hB,
          if_neg Bool.false_ne_true, ih (acc ++ hosts)
            (if p.high_priority then hp + hosts.length else hp)]
        rw [← hhp, ← hc]
        rw [List.length_append, Nat.add_comm 1, List.take_succ_cons]
        simp only [List.map_cons, List.flatten_cons, List.append_assoc]

end DiscoveryService

/-! ### Claim C10 -/

/-- C10: a discovery cycle accumulates the contributions of exactly the
providers up to the cut index — one past the first provider at which the
provider call succeeded, early termination is enabled, and both the
high-priority count and the total accumulated count have reached the
configured threshold (all providers when no such provider exists) — and
the entire accumulated list, early-terminated or not, is what is passed
to the merge step. -/
theorem C10_early_termination (e : Bool) (θ : Nat)
    (ps : List DiscoveryService.ProviderRun) :
    DiscoveryService.run_discovery e θ ps =
      HostMerger.merge_hosts
        (((ps.take (DiscoveryService.cutIndex e θ 0 0 ps)).map
          DiscoveryService.providerContrib).flatten) := by
  unfold DiscoveryService.run_discovery
  rw [DiscoveryService.discoverLoop_eq_cut e θ ps [] 0]
  simp only [List.nil_append, List.length_nil]
  cases hX : ((ps.take (DiscoveryService.cutIndex e θ 0 0 ps)).map
      DiscoveryService.providerContrib).flatten with
  | nil => simp [HostMerger.merge_hosts]
  | cons a l => simp
